import Mathlib

/-!
The file `commands/show-beacons.go` of rita.

A shallow embedding of the three beacon renderers (`showBeaconsHuman`,
`showBeaconsDelim`, `showBeaconsJSON`) and of their driver `showBeacons`.

Conventions of the embedding:

* Go `string` is `String`, Go `int64`/`int` is `Int` (the only integer
  arithmetic in the file is `len(data)-1`), Go `[]T` is `List T`.
* Go `float64` is carried as its IEEE-754 bit pattern; the code never computes
  with floats, it only copies them or hands them to the formatter `f`.
* The stringify helpers `f` and `i` live in another file of the package; every
  function that calls them takes them as parameters.
* Standard output is the list of lines written by `fmt.Println`, each of which
  the library terminates by a newline.
* A run-time panic is `none`.
-/

set_option autoImplicit false

namespace ShowBeacons

/-! ## Data model -/

/-- Go `float64`, as the 64-bit IEEE-754 pattern of the value. -/
structure Float64 where
  bits : Nat
deriving DecidableEq, Repr

/-- The zero value `0.0` of `float64`. -/
def Float64.zero : Float64 := ⟨0⟩

/-- Exponent field of a binary64 pattern (11 bits above the 52 mantissa bits). -/
def Float64.exponent (x : Float64) : Nat := (x.bits / 2 ^ 52) % 2 ^ 11

/-- Mantissa field of a binary64 pattern. -/
def Float64.mantissa (x : Float64) : Nat := x.bits % 2 ^ 52

/-- Sign bit of a binary64 pattern. -/
def Float64.sign (x : Float64) : Nat := (x.bits / 2 ^ 63) % 2

/-- Test `math.IsNaN(x) || math.IsInf(x, 0)`: the exponent field is all ones. -/
def Float64.isNaNOrInf (x : Float64) : Bool := x.exponent == 2047

/-- Modelled from the spec: the distribution summary type of `beacon.Result`
(fields `Ts` and `Ds`); package `pkg/beacon` is not among the sources. The
fields are those the renderers read, with the types `DataRow` forces. -/
structure Summary where
  Range : Int
  Mode : Int
  ModeCount : Int
  Skew : Float64
  Dispersion : Int
deriving DecidableEq, Repr

/-- Modelled from the spec: `beacon.Result`; package `pkg/beacon` is not among
the sources. The fields are those the renderers read, with the types that the
string-slice literals and the `DataRow` literal force. -/
structure Result where
  Score : Float64
  SrcIP : String
  DstIP : String
  SrcNetworkName : String
  DstNetworkName : String
  Connections : Int
  AvgBytes : Float64
  Ts : Summary
  Ds : Summary
deriving DecidableEq, Repr

/-- The local struct type `DataRow` of `showBeaconsJSON`, fields in declaration
order. -/
structure DataRow where
  Score : Float64
  SourceNetworkName : String
  DestinationNetworkName : String
  SourceIP : String
  DestinationIP : String
  Connections : Int
  AvgBytes : Float64
  IntvlRange : Int
  SizeRange : Int
  TopIntvl : Int
  TopSize : Int
  TopIntvlCount : Int
  TopSizeCount : Int
  IntvlSkew : Float64
  SizeSkew : Float64
  IntvlDispersion : Int
  SizeDispersion : Int
deriving DecidableEq, Repr

/-- The zero value of `DataRow`, which `make` fills a fresh slice with. -/
def DataRow.zero : DataRow :=
  ⟨Float64.zero, "", "", "", "", 0, Float64.zero, 0, 0, 0, 0, 0, 0,
    Float64.zero, Float64.zero, 0, 0⟩

/-! ## `showBeaconsJSON`: building the row slice -/

/-- Go `make([]DataRow, n)`: panics for a negative length, otherwise yields `n`
zero-valued rows. -/
def make (n : Int) : Option (List DataRow) :=
  if n < 0 then none else some (List.replicate n.toNat DataRow.zero)

/-- Body of the `for _, d := range data` loop of `showBeaconsJSON`: the row
built from one `Result`. -/
def jsonRow (d : Result) (showNetNames : Bool) : DataRow :=
  let srcNetworkName := ""
  let dstNetworkName := ""
  let srcNetworkName := if showNetNames then d.SrcNetworkName else srcNetworkName
  let dstNetworkName := if showNetNames then d.DstNetworkName else dstNetworkName
  ⟨d.Score, srcNetworkName, dstNetworkName, d.SrcIP, d.DstIP, d.Connections, d.AvgBytes,
    d.Ts.Range, d.Ds.Range, d.Ts.Mode, d.Ds.Mode, d.Ts.ModeCount,
    d.Ds.ModeCount, d.Ts.Skew, d.Ds.Skew, d.Ts.Dispersion, d.Ds.Dispersion⟩

/-- Lines 185-198 of `showBeaconsJSON`: `rows := make([]DataRow, len(data)-1)`
followed by one `append` per `Result`. The value is the slice handed to
`json.Marshal`; `none` is the panic of `make`. -/
def showBeaconsJSONRows (data : List Result) (showNetNames : Bool) : Option (List DataRow) :=
  (make ((data.length : Int) - 1)).map fun rows =>
    data.foldl (fun rows d => rows ++ [jsonRow d showNetNames]) rows

/-! ## `showBeaconsJSON`: marshalling -/

/-- A Go value of one of the three field types of `DataRow`. -/
inductive GoValue where
  | float (x : Float64)
  | int (n : Int)
  | str (s : String)
deriving DecidableEq, Repr

/-- One struct field as `encoding/json` sees it: the key (the Go field name,
since no tag of `DataRow` gives a name), whether the tag carries `omitempty`,
and the value. -/
structure Field where
  key : String
  omitempty : Bool
  value : GoValue
deriving DecidableEq, Repr

/-- The fields of a `DataRow` in declaration order, with the tags written in
the source: only the two network names carry `omitempty`. -/
def DataRow.fields (r : DataRow) : List Field :=
  [ ⟨"Score", false, .float r.Score⟩,
    ⟨"SourceNetworkName", true, .str r.SourceNetworkName⟩,
    ⟨"DestinationNetworkName", true, .str r.DestinationNetworkName⟩,
    ⟨"SourceIP", false, .str r.SourceIP⟩,
    ⟨"DestinationIP", false, .str r.DestinationIP⟩,
    ⟨"Connections", false, .int r.Connections⟩,
    ⟨"AvgBytes", false, .float r.AvgBytes⟩,
    ⟨"IntvlRange", false, .int r.IntvlRange⟩,
    ⟨"SizeRange", false, .int r.SizeRange⟩,
    ⟨"TopIntvl", false, .int r.TopIntvl⟩,
    ⟨"TopSize", false, .int r.TopSize⟩,
    ⟨"TopIntvlCount", false, .int r.TopIntvlCount⟩,
    ⟨"TopSizeCount", false, .int r.TopSizeCount⟩,
    ⟨"IntvlSkew", false, .float r.IntvlSkew⟩,
    ⟨"SizeSkew", false, .float r.SizeSkew⟩,
    ⟨"IntvlDispersion", false, .int r.IntvlDispersion⟩,
    ⟨"SizeDispersion", false, .int r.SizeDispersion⟩ ]

/-- The `isEmptyValue` test of `encoding/json`, used by `omitempty`. In
`DataRow` only string fields carry the option. -/
def isEmptyValue : GoValue → Bool
  | .float x => x.bits % 2 ^ 63 == 0
  | .int n => n == 0
  | .str s => s.length == 0

/-- A JSON scalar as emitted for a `DataRow` field. The textual form of
numbers and the escaping of strings are the library's and are not modelled. -/
inductive JSONValue where
  | number (x : Float64)
  | integer (n : Int)
  | string (s : String)
deriving DecidableEq, Repr

/-- A JSON object: its members in emission order. -/
abbrev JSONObject := List (String × JSONValue)

/-- The text `strconv.FormatFloat` gives for a non-finite float, which
`encoding/json` puts into its `UnsupportedValueError`. -/
def nonFiniteText (x : Float64) : String :=
  if x.mantissa ≠ 0 then "NaN" else if x.sign = 1 then "-Inf" else "+Inf"

/-- Encoding of one value by `encoding/json`: a float that is NaN or infinite
is an `UnsupportedValueError`. -/
def encodeValue : GoValue → Except String JSONValue
  | .float x =>
      if x.isNaNOrInf then .error ("json: unsupported value: " ++ nonFiniteText x)
      else .ok (.number x)
  | .int n => .ok (.integer n)
  | .str s => .ok (.string s)

/-- Encoding of a struct by `encoding/json`: the fields in declaration order,
skipping an `omitempty` field whose value is empty; the first value that cannot
be encoded aborts the encoding. -/
def encodeFields : List Field → Except String JSONObject
  | [] => .ok []
  | fd :: rest =>
      if fd.omitempty && isEmptyValue fd.value then encodeFields rest
      else
        match encodeValue fd.value with
        | .error e => .error e
        | .ok v =>
            match encodeFields rest with
            | .error e => .error e
            | .ok obj => .ok ((fd.key, v) :: obj)

/-- Go `json.Marshal(rows)` for a non-nil `[]DataRow`: the array of the
encoded rows, or the first encoding error. -/
def Marshal : List DataRow → Except String (List JSONObject)
  | [] => .ok []
  | r :: rest =>
      match encodeFields r.fields with
      | .error e => .error e
      | .ok obj =>
          match Marshal rest with
          | .error e => .error e
          | .ok arr => .ok (obj :: arr)

/-- What one call of `showBeaconsJSON` that did not panic has done: the array
it printed (if it got that far) and the error it returned (`none` is `nil`). -/
structure JSONRun where
  printed : Option (List JSONObject)
  err : Option String
deriving DecidableEq, Repr

/-- The function `showBeaconsJSON`; `none` is a panic. -/
def showBeaconsJSON (data : List Result) (showNetNames : Bool) : Option JSONRun :=
  match showBeaconsJSONRows data showNetNames with
  | none => none
  | some rows =>
      match Marshal rows with
      | .error e => some ⟨none, some e⟩
      | .ok rowsJson => some ⟨some rowsJson, none⟩

/-! ## `strings.Join` and the delimited renderer -/

/-- Go `strings.Join`. -/
def Join : List String → String → String
  | [], _ => ""
  | [x], _ => x
  | x :: y :: rest, sep => x ++ sep ++ Join (y :: rest) sep

/-- Standard output: the lines written so far, oldest first. -/
abbrev Stdout := List String

/-- Go `fmt.Println(line)` for one string argument. -/
def Println (out : Stdout) (line : String) : Stdout := out ++ [line]

/-- The value of `headerFields` in `showBeaconsDelim` (lines 120-135). -/
def delimHeaderFields (showNetNames : Bool) : List String :=
  if showNetNames then
    [ "Score", "Source Network", "Destination Network", "Source IP", "Destination IP",
      "Connections", "Avg. Bytes", "Intvl Range", "Size Range", "Top Intvl",
      "Top Size", "Top Intvl Count", "Top Size Count", "Intvl Skew",
      "Size Skew", "Intvl Dispersion", "Size Dispersion" ]
  else
    [ "Score", "Source IP", "Destination IP",
      "Connections", "Avg. Bytes", "Intvl Range", "Size Range", "Top Intvl",
      "Top Size", "Top Intvl Count", "Top Size Count", "Intvl Skew",
      "Size Skew", "Intvl Dispersion", "Size Dispersion" ]

/-- The value of `row` in the loop of `showBeaconsDelim` (lines 141-157). -/
def delimRow (f : Float64 → String) (i : Int → String) (d : Result)
    (showNetNames : Bool) : List String :=
  if showNetNames then
    [ f d.Score, d.SrcNetworkName, d.DstNetworkName,
      d.SrcIP, d.DstIP, i d.Connections, f d.AvgBytes,
      i d.Ts.Range, i d.Ds.Range, i d.Ts.Mode, i d.Ds.Mode,
      i d.Ts.ModeCount, i d.Ds.ModeCount, f d.Ts.Skew, f d.Ds.Skew,
      i d.Ts.Dispersion, i d.Ds.Dispersion ]
  else
    [ f d.Score, d.SrcIP, d.DstIP, i d.Connections, f d.AvgBytes,
      i d.Ts.Range, i d.Ds.Range, i d.Ts.Mode, i d.Ds.Mode,
      i d.Ts.ModeCount, i d.Ds.ModeCount, f d.Ts.Skew, f d.Ds.Skew,
      i d.Ts.Dispersion, i d.Ds.Dispersion ]

/-- The function `showBeaconsDelim`: the lines it prints and the error it
returns (always `nil`). -/
def showBeaconsDelim (f : Float64 → String) (i : Int → String) (data : List Result)
    (delim : String) (showNetNames : Bool) : Stdout × Option String :=
  let headerFields := delimHeaderFields showNetNames
  let out := Println [] (Join headerFields delim)
  let out := data.foldl
    (fun out d => Println out (Join (delimRow f i d showNetNames) delim)) out
  (out, none)

/-! ## The table renderer -/

/-- The part of a `tablewriter.Table` that `showBeaconsHuman` fills in. -/
structure Table where
  headers : List String
  lines : List (List String)
deriving DecidableEq, Repr

/-- Go `tablewriter.NewWriter(os.Stdout)`: an empty table. -/
def NewWriter : Table := ⟨[], []⟩

/-- Go `table.SetHeader(keys)`. -/
def Table.SetHeader (t : Table) (keys : List String) : Table := { t with headers := keys }

/-- Go `table.Append(row)`. -/
def Table.Append (t : Table) (row : List String) : Table := { t with lines := t.lines ++ [row] }

/-- The value of `headerFields` in `showBeaconsHuman` (lines 76-91). -/
def humanHeaderFields (showNetNames : Bool) : List String :=
  if showNetNames then
    [ "Score", "Source Network", "Destination Network", "Source IP", "Destination IP",
      "Connections", "Avg. Bytes", "Intvl Range", "Size Range", "Top Intvl",
      "Top Size", "Top Intvl Count", "Top Size Count", "Intvl Skew",
      "Size Skew", "Intvl Dispersion", "Size Dispersion" ]
  else
    [ "Score", "Source IP", "Destination IP",
      "Connections", "Avg. Bytes", "Intvl Range", "Size Range", "Top Intvl",
      "Top Size", "Top Intvl Count", "Top Size Count", "Intvl Skew",
      "Size Skew", "Intvl Dispersion", "Size Dispersion" ]

/-- The value of `row` in the loop of `showBeaconsHuman` (lines 96-112). -/
def humanRow (f : Float64 → String) (i : Int → String) (d : Result)
    (showNetNames : Bool) : List String :=
  if showNetNames then
    [ f d.Score, d.SrcNetworkName, d.DstNetworkName,
      d.SrcIP, d.DstIP, i d.Connections, f d.AvgBytes,
      i d.Ts.Range, i d.Ds.Range, i d.Ts.Mode, i d.Ds.Mode,
      i d.Ts.ModeCount, i d.Ds.ModeCount, f d.Ts.Skew, f d.Ds.Skew,
      i d.Ts.Dispersion, i d.Ds.Dispersion ]
  else
    [ f d.Score, d.SrcIP, d.DstIP, i d.Connections, f d.AvgBytes,
      i d.Ts.Range, i d.Ds.Range, i d.Ts.Mode, i d.Ds.Mode,
      i d.Ts.ModeCount, i d.Ds.ModeCount, f d.Ts.Skew, f d.Ds.Skew,
      i d.Ts.Dispersion, i d.Ds.Dispersion ]

/-- The function `showBeaconsHuman`: the table on which `Render` is called and
the error it returns (always `nil`). -/
def showBeaconsHuman (f : Float64 → String) (i : Int → String) (data : List Result)
    (showNetNames : Bool) : Table × Option String :=
  let table := NewWriter
  let headerFields := humanHeaderFields showNetNames
  let table := table.SetHeader headerFields
  let table := data.foldl (fun table d => table.Append (humanRow f i d showNetNames)) table
  (table, none)

/-! ## The driver `showBeacons` -/

/-- What `showBeacons` reads from its `cli.Context`. -/
structure Context where
  arg0 : String
  config : String
  networkNames : Bool
  jsonOutput : Bool
  humanReadable : Bool
  delimiter : String
deriving DecidableEq, Repr

/-- A call of one of the three renderers, with its arguments. -/
inductive Invocation where
  | JSON (data : List Result) (showNetNames : Bool)
  | Human (data : List Result) (showNetNames : Bool)
  | Delim (data : List Result) (delim : String) (showNetNames : Bool)
deriving DecidableEq, Repr

/-- The value of `cli.NewExitError(message, exitCode)`. -/
structure ExitError where
  message : String
  exitCode : Int
deriving DecidableEq, Repr

/-- What one call of `showBeacons` that did not panic has done: the renderer
calls it made, in order, and the error it returned (`none` is `nil`). -/
structure DriverRun where
  calls : List Invocation
  err : Option ExitError
deriving DecidableEq, Repr

/-- The function `showBeacons`. `Results config db` stands for
`beacon.Results` on the resources initialised from `config` with database `db`
selected: the data and the error it returns. `none` is a panic, which a
renderer's panic propagates to. -/
def showBeacons (f : Float64 → String) (i : Int → String)
    (Results : String → String → List Result × Option String) (c : Context) :
    Option DriverRun :=
  let db := c.arg0
  if db = "" then some ⟨[], some ⟨"Specify a database", -1⟩⟩
  else
    let (data, err) := Results c.config db
    match err with
    | some e => some ⟨[], some ⟨e, -1⟩⟩
    | none =>
      if ¬ (data.length > 0) then some ⟨[], some ⟨"No results were found for " ++ db, -1⟩⟩
      else
        let showNetNames := c.networkNames
        if c.jsonOutput then
          match showBeaconsJSON data showNetNames with
          | none => none
          | some _ => some ⟨[.JSON data showNetNames], none⟩
        else if c.humanReadable then
          match (showBeaconsHuman f i data showNetNames).2 with
          | some e => some ⟨[.Human data showNetNames], some ⟨e, -1⟩⟩
          | none => some ⟨[.Human data showNetNames], none⟩
        else
          match (showBeaconsDelim f i data c.delimiter showNetNames).2 with
          | some e => some ⟨[.Delim data c.delimiter showNetNames], some ⟨e, -1⟩⟩
          | none => some ⟨[.Delim data c.delimiter showNetNames], none⟩

/-! ## `strings.Split`, the reading of "split on the delimiter" -/

/-- Test whether the second list starts the first (`strings.HasPrefix`). -/
def startsWith : List Char → List Char → Bool
  | _, [] => true
  | [], _ :: _ => false
  | a :: s, b :: p => a == b && startsWith s p

/-- Go `strings.Index` on character lists: the position of the first
occurrence of `sep`, `none` for Go's `-1`. -/
def indexChars : List Char → List Char → Option Nat
  | [], sep => if sep.isEmpty then some 0 else none
  | a :: s, sep =>
      if startsWith (a :: s) sep then some 0 else (indexChars s sep).map (· + 1)

/-- The loop of Go's `genSplit` for a non-empty separator: cut at the first
occurrence and go on behind it, at most `n` times. -/
def genSplit (sep : List Char) : Nat → List Char → List (List Char)
  | 0, s => [s]
  | n + 1, s =>
      match indexChars s sep with
      | none => [s]
      | some m => s.take m :: genSplit sep n (s.drop (m + sep.length))

/-- Go's `explode`, which `strings.Split` uses for the empty separator: one
string per character. -/
def explode (s : List Char) : List (List Char) := s.map fun c => [c]

/-- Go `strings.Split(s, sep)`. Every cut of a non-empty separator consumes a
character, so `s.length` rounds of the loop are as many as Go's bound
`Count(s, sep)` ever allows. -/
def Split (s sep : String) : List String :=
  if sep.data.isEmpty then (explode s.data).map String.mk
  else (genSplit sep.data s.length s.data).map String.mk

/-! ## Sample inputs -/

/-- The single `Result` of the spec's example. The floats are the binary64
patterns of 0.91, 512.3, 0.02 and 0.01. -/
def sampleResult : Result :=
  { Score := ⟨0x3FED1EB851EB851F⟩, SrcIP := "10.0.0.5", DstIP := "8.8.8.8",
    SrcNetworkName := "", DstNetworkName := "",
    Connections := 120, AvgBytes := ⟨0x4080026666666666⟩,
    Ts := ⟨30, 60, 100, ⟨0x3F947AE147AE147B⟩, 5⟩,
    Ds := ⟨200, 512, 90, ⟨0x3F847AE147AE147B⟩, 10⟩ }

/-- A `Result` with resolved network names, one of which holds a comma. -/
def namedResult : Result :=
  { sampleResult with SrcNetworkName := "Lab, East", DstNetworkName := "Public" }

/-- A float formatter for the examples: the decimal text of the four floats
of `sampleResult`, and `0` for every other float. -/
def sampleF : Float64 → String := fun x =>
  if x.bits = 0x3FED1EB851EB851F then "0.91"
  else if x.bits = 0x4080026666666666 then "512.3"
  else if x.bits = 0x3F947AE147AE147B then "0.02"
  else if x.bits = 0x3F847AE147AE147B then "0.01"
  else "0"

/-- An integer formatter for the examples: plain decimal digits. -/
def sampleI : Int → String := fun n => toString n

/-- A context for the examples: database `dataset`, every flag unset, comma as
delimiter. -/
def sampleContext : Context :=
  { arg0 := "dataset", config := "", networkNames := false, jsonOutput := false,
    humanReadable := false, delimiter := "," }

/-- The three objects that `showBeaconsJSON` prints for the input
`[sampleResult, namedResult]` with the network names shown: the object of the
leading zero row, then the objects of the two Results. -/
def samplePrinted : List JSONObject :=
  [ [ ("Score", .number ⟨0⟩), ("SourceIP", .string ""), ("DestinationIP", .string ""),
      ("Connections", .integer 0), ("AvgBytes", .number ⟨0⟩), ("IntvlRange", .integer 0),
      ("SizeRange", .integer 0), ("TopIntvl", .integer 0), ("TopSize", .integer 0),
      ("TopIntvlCount", .integer 0), ("TopSizeCount", .integer 0),
      ("IntvlSkew", .number ⟨0⟩), ("SizeSkew", .number ⟨0⟩),
      ("IntvlDispersion", .integer 0), ("SizeDispersion", .integer 0) ],
    [ ("Score", .number ⟨0x3FED1EB851EB851F⟩), ("SourceIP", .string "10.0.0.5"),
      ("DestinationIP", .string "8.8.8.8"), ("Connections", .integer 120),
      ("AvgBytes", .number ⟨0x4080026666666666⟩), ("IntvlRange", .integer 30),
      ("SizeRange", .integer 200), ("TopIntvl", .integer 60), ("TopSize", .integer 512),
      ("TopIntvlCount", .integer 100), ("TopSizeCount", .integer 90),
      ("IntvlSkew", .number ⟨0x3F947AE147AE147B⟩), ("SizeSkew", .number ⟨0x3F847AE147AE147B⟩),
      ("IntvlDispersion", .integer 5), ("SizeDispersion", .integer 10) ],
    [ ("Score", .number ⟨0x3FED1EB851EB851F⟩), ("SourceNetworkName", .string "Lab, East"),
      ("DestinationNetworkName", .string "Public"), ("SourceIP", .string "10.0.0.5"),
      ("DestinationIP", .string "8.8.8.8"), ("Connections", .integer 120),
      ("AvgBytes", .number ⟨0x4080026666666666⟩), ("IntvlRange", .integer 30),
      ("SizeRange", .integer 200), ("TopIntvl", .integer 60), ("TopSize", .integer 512),
      ("TopIntvlCount", .integer 100), ("TopSizeCount", .integer 90),
      ("IntvlSkew", .number ⟨0x3F947AE147AE147B⟩), ("SizeSkew", .number ⟨0x3F847AE147AE147B⟩),
      ("IntvlDispersion", .integer 5), ("SizeDispersion", .integer 10) ] ]

/-- Stringification of a field value with the formatters of the text
renderers: `f` for floats, `i` for integers, strings as they are. -/
def GoValue.render (f : Float64 → String) (i : Int → String) : GoValue → String
  | .float x => f x
  | .int n => i n
  | .str s => s

/-- A `Result` with both network names cleared; two inputs that differ only in
their network names agree after it. -/
def clearNetworkNames (d : Result) : Result :=
  { d with SrcNetworkName := "", DstNetworkName := "" }

/-- The keys of a JSON object, in emission order. -/
def keysOf (obj : JSONObject) : List String := obj.map Prod.fst

/-- The key list the specification gives for the object of a row: lower camel
case names, the two network names left out when empty. -/
def specKeys (r : DataRow) : List String :=
  ["score"] ++ (if r.SourceNetworkName = "" then [] else ["sourceNetworkName"])
    ++ (if r.DestinationNetworkName = "" then [] else ["destinationNetworkName"])
    ++ ["sourceIP", "destinationIP", "connections", "avgBytes", "intervalRange",
        "sizeRange", "topInterval", "topSize", "topIntervalCount", "topSizeCount",
        "intervalSkew", "sizeSkew", "intervalDispersion", "sizeDispersion"]

/-- The key list `encoding/json` derives from the declaration of `DataRow`:
the Go field names, the two network names left out when empty. -/
def goKeys (r : DataRow) : List String :=
  ["Score"] ++ (if r.SourceNetworkName = "" then [] else ["SourceNetworkName"])
    ++ (if r.DestinationNetworkName = "" then [] else ["DestinationNetworkName"])
    ++ ["SourceIP", "DestinationIP", "Connections", "AvgBytes", "IntvlRange",
        "SizeRange", "TopIntvl", "TopSize", "TopIntvlCount", "TopSizeCount",
        "IntvlSkew", "SizeSkew", "IntvlDispersion", "SizeDispersion"]

/-- The text on standard output: every printed line, followed by the newline
that `fmt.Println` adds to it. -/
def textOf : Stdout → String
  | [] => ""
  | line :: rest => line ++ "\n" ++ textOf rest

/-- The lines of a text: the pieces that a newline terminates, in order (what
`strings.Split` on the newline gives, without the piece behind the last
newline). -/
def linesOf (text : String) : List String := (Split text "\n").dropLast

/-- Stringification of a JSON scalar with the formatters of the text
renderers: `f` for numbers, `i` for integers, strings as they are. -/
def JSONValue.render (f : Float64 → String) (i : Int → String) : JSONValue → String
  | .number x => f x
  | .integer n => i n
  | .string s => s

/-- A JSON object without its two network-name members. -/
def dropNames (obj : JSONObject) : JSONObject :=
  obj.filter fun m => m.1 != "SourceNetworkName" && m.1 != "DestinationNetworkName"

/-! ## Lemmas on the loops -/

/-- A loop that appends one element per input leaves the initial slice in
front of the mapped input. -/
theorem foldl_append_singleton {α β : Type} (g : α → β) (xs : List α) (init : List β) :
    xs.foldl (fun acc x => acc ++ [g x]) init = init ++ xs.map g := by
  induction xs generalizing init with
  | nil => simp
  | cons x xs ih => simp [List.foldl_cons, ih]

/-- The row slice of `showBeaconsJSON` for a non-empty input. -/
theorem rows_of_cons (d : Result) (ds : List Result) (nn : Bool) :
    showBeaconsJSONRows (d :: ds) nn
      = some (List.replicate ds.length DataRow.zero
          ++ (d :: ds).map (fun x => jsonRow x nn)) := by
  have h : ¬ (((ds.length : Int) + 1) - 1 < 0) := by omega
  simp only [showBeaconsJSONRows, make, List.length_cons, Nat.cast_add, Nat.cast_one, h,
    if_false, Option.map_some']
  rw [foldl_append_singleton (fun x => jsonRow x nn)]
  simp

/-- The row slice of `showBeaconsJSON` for the empty input: `make` panics. -/
theorem rows_of_nil (nn : Bool) : showBeaconsJSONRows [] nn = none := by
  simp [showBeaconsJSONRows, make]

/-- The lines of `showBeaconsDelim`. -/
theorem delim_lines (f : Float64 → String) (i : Int → String) (data : List Result)
    (delim : String) (nn : Bool) :
    (showBeaconsDelim f i data delim nn).1
      = Join (delimHeaderFields nn) delim
          :: data.map (fun d => Join (delimRow f i d nn) delim) := by
  simp only [showBeaconsDelim, Println]
  rw [foldl_append_singleton (fun d => Join (delimRow f i d nn) delim)]
  simp

/-! ## Lemmas on marshalling -/

/-- The keys of an encoded struct are the keys of the fields that `omitempty`
does not drop, in order. -/
theorem encodeFields_keys (fs : List Field) (obj : JSONObject)
    (h : encodeFields fs = .ok obj) :
    keysOf obj
      = (fs.filter (fun fd => !(fd.omitempty && isEmptyValue fd.value))).map Field.key := by
  induction fs generalizing obj with
  | nil =>
      simp only [encodeFields, Except.ok.injEq] at h
      subst h; rfl
  | cons fd rest ih =>
      unfold encodeFields at h
      by_cases hc : (fd.omitempty && isEmptyValue fd.value) = true
      · rw [if_pos hc] at h
        simp [List.filter, hc, ih obj h]
      · rw [if_neg hc] at h
        cases hv : encodeValue fd.value with
        | error e => rw [hv] at h; cases h
        | ok v =>
            rw [hv] at h
            cases hr : encodeFields rest with
            | error e => rw [hr] at h; cases h
            | ok o =>
                rw [hr] at h
                simp only [Except.ok.injEq] at h
                subst h
                have hc' : (fd.omitempty && isEmptyValue fd.value) = false :=
                  Bool.eq_false_iff.mpr hc
                have hf : List.filter (fun fd => !(fd.omitempty && isEmptyValue fd.value))
                    (fd :: rest)
                    = fd :: List.filter
                        (fun fd => !(fd.omitempty && isEmptyValue fd.value)) rest := by
                  apply List.filter_cons_of_pos
                  rw [hc']; rfl
                rw [hf, List.map_cons]
                simp only [keysOf, List.map_cons]
                exact congrArg _ (ih o hr)

/-- An empty Go string is the empty `String`. -/
theorem length_eq_zero_iff (s : String) : s.length = 0 ↔ s = "" := by
  constructor
  · intro h
    have : s.data = [] := List.length_eq_zero.mp h
    exact String.ext this
  · intro h; subst h; rfl

/-- The `omitempty` test on a string asks whether it is the empty string. -/
theorem isEmptyValue_str (s : String) : isEmptyValue (.str s) = decide (s = "") := by
  by_cases h : s = ""
  · subst h; rfl
  · have hl : s.length ≠ 0 := fun hl => h ((length_eq_zero_iff s).mp hl)
    simp [isEmptyValue, h, hl]

/-- The keys of the object of one row. -/
theorem row_keys (r : DataRow) (obj : JSONObject) (h : encodeFields r.fields = .ok obj) :
    keysOf obj = goKeys r := by
  rw [encodeFields_keys _ _ h]
  by_cases h1 : r.SourceNetworkName = "" <;> by_cases h2 : r.DestinationNetworkName = ""
    <;> simp [DataRow.fields, List.filter, isEmptyValue_str, goKeys, h1, h2]

/-- A successful `Marshal` encodes the rows one by one, in order. -/
theorem marshal_forall₂ (rows : List DataRow) (arr : List JSONObject)
    (h : Marshal rows = .ok arr) :
    List.Forall₂ (fun r obj => encodeFields r.fields = .ok obj) rows arr := by
  induction rows generalizing arr with
  | nil =>
      simp only [Marshal, Except.ok.injEq] at h
      subst h; exact List.Forall₂.nil
  | cons r rest ih =>
      unfold Marshal at h
      cases ho : encodeFields r.fields with
      | error e => rw [ho] at h; cases h
      | ok obj =>
          rw [ho] at h
          cases hr : Marshal rest with
          | error e => rw [hr] at h; cases h
          | ok a =>
              rw [hr] at h
              simp only [Except.ok.injEq] at h
              subst h
              exact List.Forall₂.cons ho (ih a hr)

/-- What `showBeaconsJSON` prints is the marshalled row slice. -/
theorem printed_of_run (data : List Result) (nn : Bool) (arr : List JSONObject)
    (h : showBeaconsJSON data nn = some ⟨some arr, none⟩) :
    ∃ rows, showBeaconsJSONRows data nn = some rows ∧ Marshal rows = .ok arr := by
  unfold showBeaconsJSON at h
  cases hr : showBeaconsJSONRows data nn with
  | none => rw [hr] at h; cases h
  | some rows =>
      rw [hr] at h
      dsimp only at h
      cases hm : Marshal rows with
      | error e => rw [hm] at h; simp at h
      | ok a =>
          rw [hm] at h
          simp only [Option.some.injEq, JSONRun.mk.injEq, and_true] at h
          exact ⟨rows, rfl, by rw [hm, h]⟩

/-! ## The JSON row slice -/

/-- C1, evaluated on a two-Result input: the slice handed to `json.Marshal`
has three rows, not two; the first is a zero-valued row that no `Result`
produced, and the printed array has three elements. -/
theorem json_rows_two_results :
    showBeaconsJSONRows [sampleResult, namedResult] false
        = some [DataRow.zero, jsonRow sampleResult false, jsonRow namedResult false]
      ∧ (showBeaconsJSON [sampleResult, namedResult] false).map
          (fun run => run.printed.map List.length) = some (some 3)
      ∧ [sampleResult, namedResult].length = 2 := by
  decide

/-- C2, evaluated on the empty input: for both flag values `make` is asked for
length `-1`, so `showBeaconsJSON` panics and prints nothing. -/
theorem json_empty_input_panics :
    ∀ nn : Bool, showBeaconsJSONRows [] nn = none ∧ showBeaconsJSON [] nn = none := by
  intro nn
  cases nn <;> decide

/-- C9: for a non-empty input of length `n` the marshalled slice is `n-1`
zero-valued rows followed by the projections of the `n` Results in input order,
with the network names copied only when the flag is set; its length is `2n-1`,
which is `n` only for `n = 1`. -/
theorem json_rows_shape (data : List Result) (nn : Bool) (h : data ≠ []) :
    ∃ rows, showBeaconsJSONRows data nn = some rows
      ∧ rows = List.replicate (data.length - 1) DataRow.zero
          ++ data.map (fun d =>
              (⟨d.Score, if nn then d.SrcNetworkName else "",
                if nn then d.DstNetworkName else "", d.SrcIP, d.DstIP, d.Connections,
                d.AvgBytes, d.Ts.Range, d.Ds.Range, d.Ts.Mode, d.Ds.Mode, d.Ts.ModeCount,
                d.Ds.ModeCount, d.Ts.Skew, d.Ds.Skew, d.Ts.Dispersion,
                d.Ds.Dispersion⟩ : DataRow))
      ∧ rows.length = 2 * data.length - 1
      ∧ (rows.length = data.length ↔ data.length = 1) := by
  cases data with
  | nil => exact absurd rfl h
  | cons d ds =>
      refine ⟨_, rows_of_cons d ds nn, ?_, ?_, ?_⟩
      · simp [jsonRow]
      · simp only [List.length_append, List.length_replicate, List.length_map,
          List.length_cons]
        omega
      · simp only [List.length_append, List.length_replicate, List.length_map,
          List.length_cons]
        omega

/-- C9 at the two-Result input. -/
theorem json_rows_shape_witness :
    ∃ rows, showBeaconsJSONRows [sampleResult, namedResult] true = some rows
      ∧ rows = List.replicate ([sampleResult, namedResult].length - 1) DataRow.zero
          ++ [sampleResult, namedResult].map (fun d =>
              (⟨d.Score, if true then d.SrcNetworkName else "",
                if true then d.DstNetworkName else "", d.SrcIP, d.DstIP, d.Connections,
                d.AvgBytes, d.Ts.Range, d.Ds.Range, d.Ts.Mode, d.Ds.Mode, d.Ts.ModeCount,
                d.Ds.ModeCount, d.Ts.Skew, d.Ds.Skew, d.Ts.Dispersion,
                d.Ds.Dispersion⟩ : DataRow))
      ∧ rows.length = 2 * [sampleResult, namedResult].length - 1
      ∧ (rows.length = [sampleResult, namedResult].length
          ↔ [sampleResult, namedResult].length = 1) :=
  json_rows_shape [sampleResult, namedResult] true (by decide)

/-- Every row of the slice built with the flag off has empty network names. -/
theorem rows_names_empty (data : List Result) (rows : List DataRow)
    (h : showBeaconsJSONRows data false = some rows) :
    ∀ r ∈ rows, r.SourceNetworkName = "" ∧ r.DestinationNetworkName = "" := by
  cases data with
  | nil => rw [rows_of_nil] at h; cases h
  | cons d ds =>
      rw [rows_of_cons] at h
      simp only [Option.some.injEq] at h
      subst h
      intro r hr
      rcases List.mem_append.mp hr with hz | hm
      · rw [List.eq_of_mem_replicate hz]
        exact ⟨rfl, rfl⟩
      · obtain ⟨x, _, rfl⟩ := List.mem_map.mp hm
        exact ⟨rfl, rfl⟩

/-- With the flag off the row of a `Result` does not depend on its network
names. -/
theorem jsonRow_clear (d : Result) : jsonRow (clearNetworkNames d) false = jsonRow d false := rfl

/-- With the flag off the row slice does not depend on the network names. -/
theorem rows_clear (data : List Result) :
    showBeaconsJSONRows (data.map clearNetworkNames) false = showBeaconsJSONRows data false := by
  cases data with
  | nil => rfl
  | cons d ds =>
      rw [List.map_cons, rows_of_cons, rows_of_cons]
      simp [jsonRow_clear, Function.comp_def]

/-- C8: with the flag off every marshalled row has empty network names,
neither network-name key occurs in a printed object, and two inputs that agree
once their network names are cleared give the same rows and the same run. -/
theorem json_flag_off_hides_names (data₁ data₂ : List Result)
    (h : data₁.map clearNetworkNames = data₂.map clearNetworkNames) :
    (∀ rows, showBeaconsJSONRows data₁ false = some rows →
        ∀ r ∈ rows, r.SourceNetworkName = "" ∧ r.DestinationNetworkName = "")
      ∧ (∀ arr, showBeaconsJSON data₁ false = some ⟨some arr, none⟩ →
          ∀ obj ∈ arr, "SourceNetworkName" ∉ keysOf obj
            ∧ "DestinationNetworkName" ∉ keysOf obj
            ∧ "sourceNetworkName" ∉ keysOf obj
            ∧ "destinationNetworkName" ∉ keysOf obj)
      ∧ showBeaconsJSONRows data₁ false = showBeaconsJSONRows data₂ false
      ∧ showBeaconsJSON data₁ false = showBeaconsJSON data₂ false := by
  have hrows : showBeaconsJSONRows data₁ false = showBeaconsJSONRows data₂ false := by
    rw [← rows_clear data₁, ← rows_clear data₂, h]
  refine ⟨rows_names_empty data₁, ?_, hrows, ?_⟩
  · intro arr harr obj hobj
    obtain ⟨rows, hr, hm⟩ := printed_of_run data₁ false arr harr
    have hall := marshal_forall₂ rows arr hm
    have hne := rows_names_empty data₁ rows hr
    have key : ∀ (rs : List DataRow) (os : List JSONObject),
        List.Forall₂ (fun r o => encodeFields r.fields = .ok o) rs os →
        (∀ r ∈ rs, r.SourceNetworkName = "" ∧ r.DestinationNetworkName = "") →
        ∀ o ∈ os, "SourceNetworkName" ∉ keysOf o ∧ "DestinationNetworkName" ∉ keysOf o
          ∧ "sourceNetworkName" ∉ keysOf o ∧ "destinationNetworkName" ∉ keysOf o := by
      intro rs os hf
      induction hf with
      | nil => intro _ o ho; cases ho
      | cons hhead _ ih =>
          intro hn o ho
          rcases List.mem_cons.mp ho with rfl | ht
          · rw [row_keys _ _ hhead]
            have := hn _ (List.mem_cons_self _ _)
            simp [goKeys, this.1, this.2]
          · exact ih (fun r hr => hn r (List.mem_cons_of_mem _ hr)) o ht
    exact key rows arr hall hne obj hobj
  · unfold showBeaconsJSON
    rw [hrows]

/-- C8 at two one-Result inputs that differ only in their network names. -/
theorem json_flag_off_hides_names_witness :
    [namedResult].map clearNetworkNames = [sampleResult].map clearNetworkNames
      ∧ showBeaconsJSONRows [namedResult] false = showBeaconsJSONRows [sampleResult] false
      ∧ showBeaconsJSON [namedResult] false = showBeaconsJSON [sampleResult] false :=
  ⟨by decide,
    (json_flag_off_hides_names [namedResult] [sampleResult] (by decide)).2.2.1,
    (json_flag_off_hides_names [namedResult] [sampleResult] (by decide)).2.2.2⟩

/-! ## Lines, columns and keys -/

/-- C5: in both text renderers the header and the row for the flag set are the
header and the row for the flag unset with the two network entries put between
the first entry (Score) and the second (Source IP); headers and rows have 15
entries without the flag and 17 with it. -/
theorem network_columns_inserted (f : Float64 → String) (i : Int → String) (d : Result) :
    (humanHeaderFields true
        = (humanHeaderFields false).take 1 ++ ["Source Network", "Destination Network"]
            ++ (humanHeaderFields false).drop 1
      ∧ delimHeaderFields true
        = (delimHeaderFields false).take 1 ++ ["Source Network", "Destination Network"]
            ++ (delimHeaderFields false).drop 1)
    ∧ (humanRow f i d true
        = (humanRow f i d false).take 1 ++ [d.SrcNetworkName, d.DstNetworkName]
            ++ (humanRow f i d false).drop 1
      ∧ delimRow f i d true
        = (delimRow f i d false).take 1 ++ [d.SrcNetworkName, d.DstNetworkName]
            ++ (delimRow f i d false).drop 1)
    ∧ ((humanHeaderFields false).take 2 = ["Score", "Source IP"]
      ∧ (delimHeaderFields false).take 2 = ["Score", "Source IP"]
      ∧ (humanRow f i d false).take 2 = [f d.Score, d.SrcIP]
      ∧ (delimRow f i d false).take 2 = [f d.Score, d.SrcIP])
    ∧ ((humanHeaderFields false).length = 15 ∧ (humanRow f i d false).length = 15
      ∧ (humanHeaderFields true).length = 17 ∧ (humanRow f i d true).length = 17
      ∧ (delimHeaderFields false).length = 15 ∧ (delimRow f i d false).length = 15
      ∧ (delimHeaderFields true).length = 17 ∧ (delimRow f i d true).length = 17) := by
  refine ⟨⟨rfl, rfl⟩, ⟨rfl, rfl⟩, ⟨rfl, rfl, rfl, rfl⟩, ⟨rfl, rfl, rfl, rfl, rfl, rfl, rfl, rfl⟩⟩

/-- C7 as the specification words it fails on the spec's own example: the
one object printed for it has the Go field names as keys, which is not the
lower camel case key list, and has no key `score`. -/
theorem json_keys_not_spec_keys :
    ∃ obj, showBeaconsJSON [sampleResult] false = some ⟨some [obj], none⟩
      ∧ keysOf obj ≠ specKeys (jsonRow sampleResult false)
      ∧ "score" ∉ keysOf obj := by
  refine ⟨[("Score", .number sampleResult.Score), ("SourceIP", .string "10.0.0.5"),
    ("DestinationIP", .string "8.8.8.8"), ("Connections", .integer 120),
    ("AvgBytes", .number sampleResult.AvgBytes), ("IntvlRange", .integer 30),
    ("SizeRange", .integer 200), ("TopIntvl", .integer 60), ("TopSize", .integer 512),
    ("TopIntvlCount", .integer 100), ("TopSizeCount", .integer 90),
    ("IntvlSkew", .number sampleResult.Ts.Skew), ("SizeSkew", .number sampleResult.Ds.Skew),
    ("IntvlDispersion", .integer 5), ("SizeDispersion", .integer 10)], ?_, ?_, ?_⟩
  · decide
  · decide
  · decide

/-- C7, amended: every object that `showBeaconsJSON` prints is the encoding of
the row at the same position of the marshalled slice, and its keys are the Go
field names Score, SourceNetworkName, DestinationNetworkName, SourceIP,
DestinationIP, Connections, AvgBytes, IntvlRange, SizeRange, TopIntvl, TopSize,
TopIntvlCount, TopSizeCount, IntvlSkew, SizeSkew, IntvlDispersion,
SizeDispersion in that order, each network-name key left out exactly when the
row's value is the empty string. -/
theorem json_keys_are_field_names (data : List Result) (nn : Bool) (arr : List JSONObject)
    (h : showBeaconsJSON data nn = some ⟨some arr, none⟩) :
    ∃ rows, showBeaconsJSONRows data nn = some rows
      ∧ List.Forall₂ (fun r obj =>
          keysOf obj
            = ["Score"] ++ (if r.SourceNetworkName = "" then [] else ["SourceNetworkName"])
              ++ (if r.DestinationNetworkName = "" then [] else ["DestinationNetworkName"])
              ++ ["SourceIP", "DestinationIP", "Connections", "AvgBytes", "IntvlRange",
                  "SizeRange", "TopIntvl", "TopSize", "TopIntvlCount", "TopSizeCount",
                  "IntvlSkew", "SizeSkew", "IntvlDispersion", "SizeDispersion"]
          ∧ ("SourceNetworkName" ∈ keysOf obj ↔ r.SourceNetworkName ≠ "")
          ∧ ("DestinationNetworkName" ∈ keysOf obj ↔ r.DestinationNetworkName ≠ ""))
          rows arr := by
  obtain ⟨rows, hr, hm⟩ := printed_of_run data nn arr h
  refine ⟨rows, hr, ?_⟩
  refine List.Forall₂.imp ?_ (marshal_forall₂ rows arr hm)
  intro r obj ho
  have hk := row_keys r obj ho
  refine ⟨hk, ?_, ?_⟩
  · rw [hk]
    by_cases h1 : r.SourceNetworkName = "" <;> by_cases h2 : r.DestinationNetworkName = ""
      <;> simp [goKeys, h1, h2]
  · rw [hk]
    by_cases h1 : r.SourceNetworkName = "" <;> by_cases h2 : r.DestinationNetworkName = ""
      <;> simp [goKeys, h1, h2]

/-- C7, amended, at a one-Result input with network names and the flag set. -/
theorem json_keys_are_field_names_witness :
    ∃ arr, showBeaconsJSON [namedResult] true = some ⟨some arr, none⟩
      ∧ ∃ rows, showBeaconsJSONRows [namedResult] true = some rows
        ∧ List.Forall₂ (fun r obj =>
          keysOf obj
            = ["Score"] ++ (if r.SourceNetworkName = "" then [] else ["SourceNetworkName"])
              ++ (if r.DestinationNetworkName = "" then [] else ["DestinationNetworkName"])
              ++ ["SourceIP", "DestinationIP", "Connections", "AvgBytes", "IntvlRange",
                  "SizeRange", "TopIntvl", "TopSize", "TopIntvlCount", "TopSizeCount",
                  "IntvlSkew", "SizeSkew", "IntvlDispersion", "SizeDispersion"]
          ∧ ("SourceNetworkName" ∈ keysOf obj ↔ r.SourceNetworkName ≠ "")
          ∧ ("DestinationNetworkName" ∈ keysOf obj ↔ r.DestinationNetworkName ≠ ""))
          rows arr :=
  ⟨[[("Score", .number namedResult.Score), ("SourceNetworkName", .string "Lab, East"),
      ("DestinationNetworkName", .string "Public"), ("SourceIP", .string "10.0.0.5"),
      ("DestinationIP", .string "8.8.8.8"), ("Connections", .integer 120),
      ("AvgBytes", .number namedResult.AvgBytes), ("IntvlRange", .integer 30),
      ("SizeRange", .integer 200), ("TopIntvl", .integer 60), ("TopSize", .integer 512),
      ("TopIntvlCount", .integer 100), ("TopSizeCount", .integer 90),
      ("IntvlSkew", .number namedResult.Ts.Skew), ("SizeSkew", .number namedResult.Ds.Skew),
      ("IntvlDispersion", .integer 5), ("SizeDispersion", .integer 10)]],
    by decide, json_keys_are_field_names [namedResult] true _ (by decide)⟩

/-! ## The driver -/

/-- On a non-empty input `showBeaconsJSON` does not panic. -/
theorem showBeaconsJSON_cons (d : Result) (ds : List Result) (nn : Bool) :
    ∃ run, showBeaconsJSON (d :: ds) nn = some run := by
  unfold showBeaconsJSON
  rw [rows_of_cons]
  dsimp only
  cases Marshal (List.replicate ds.length DataRow.zero
      ++ (d :: ds).map (fun x => jsonRow x nn)) with
  | error e => exact ⟨_, rfl⟩
  | ok a => exact ⟨_, rfl⟩

/-- The driver on a non-empty input: one renderer call, chosen by the flags. -/
theorem showBeacons_cons (f : Float64 → String) (i : Int → String)
    (Results : String → String → List Result × Option String) (c : Context)
    (d : Result) (ds : List Result)
    (hdb : c.arg0 ≠ "") (hres : Results c.config c.arg0 = (d :: ds, none)) :
    showBeacons f i Results c
      = some ⟨[if c.jsonOutput then .JSON (d :: ds) c.networkNames
                else if c.humanReadable then .Human (d :: ds) c.networkNames
                else .Delim (d :: ds) c.delimiter c.networkNames], none⟩ := by
  unfold showBeacons
  simp only [hdb, if_false, hres]
  have hlen : ¬ ¬ ((d :: ds).length > 0) := by simp
  rw [if_neg hlen]
  by_cases hj : c.jsonOutput = true
  · obtain ⟨run, hrun⟩ := showBeaconsJSON_cons d ds c.networkNames
    simp only [hj, if_true, hrun]
  · by_cases hh : c.humanReadable = true
    · simp only [hj, hh, if_true, if_false]
      rfl
    · simp only [hj, hh, if_false]
      rfl

/-- C10: when the database is named and `beacon.Results` returns `data`
without error, the driver returns the error "No results were found for " + db
and calls no renderer if `data` is empty; otherwise it calls exactly one
renderer, on `data`: `showBeaconsJSON` if json-output is set, else
`showBeaconsHuman` if human-readable is set, else `showBeaconsDelim`. Every
renderer call it makes has a non-empty sequence, so the row slice of a JSON
call is allocated and the driver never panics. -/
theorem driver_dispatch (f : Float64 → String) (i : Int → String)
    (Results : String → String → List Result × Option String) (c : Context)
    (data : List Result)
    (hdb : c.arg0 ≠ "") (hres : Results c.config c.arg0 = (data, none)) :
    (data = [] → showBeacons f i Results c
        = some ⟨[], some ⟨"No results were found for " ++ c.arg0, -1⟩⟩)
      ∧ (data ≠ [] → showBeacons f i Results c
        = some ⟨[if c.jsonOutput then .JSON data c.networkNames
                  else if c.humanReadable then .Human data c.networkNames
                  else .Delim data c.delimiter c.networkNames], none⟩)
      ∧ (∃ run, showBeacons f i Results c = some run
          ∧ ∀ call ∈ run.calls,
              match call with
              | .JSON x n => x ≠ [] ∧ (showBeaconsJSONRows x n).isSome = true
              | .Human x _ => x ≠ []
              | .Delim x _ _ => x ≠ []) := by
  cases data with
  | nil =>
      have h0 : showBeacons f i Results c
          = some ⟨[], some ⟨"No results were found for " ++ c.arg0, -1⟩⟩ := by
        unfold showBeacons
        simp only [hdb, if_false, hres]
        simp
      refine ⟨fun _ => h0, fun h => absurd rfl h, ⟨_, h0, ?_⟩⟩
      intro call hcall
      cases hcall
  | cons d ds =>
      have h1 := showBeacons_cons f i Results c d ds hdb hres
      refine ⟨fun h => List.noConfusion h, fun _ => h1, ⟨_, h1, ?_⟩⟩
      intro call hcall
      rw [List.mem_singleton] at hcall
      subst hcall
      by_cases hj : c.jsonOutput = true
      · simp only [hj, if_true]
        refine ⟨by simp, ?_⟩
        rw [rows_of_cons]
        rfl
      · by_cases hh : c.humanReadable = true
        · simp [hj, hh]
        · simp [hj, hh]

/-- C10 at a one-Result collection with json-output set. -/
theorem driver_dispatch_witness :
    showBeacons sampleF sampleI (fun _ _ => ([sampleResult], none))
        { sampleContext with jsonOutput := true }
      = some ⟨[.JSON [sampleResult] false], none⟩ :=
  (driver_dispatch sampleF sampleI (fun _ _ => ([sampleResult], none))
    { sampleContext with jsonOutput := true } [sampleResult] (by decide) rfl).2.1 (by decide)

/-! ## Splitting the delimited lines -/

/-- A list that starts with `c :: t` contains `c`. -/
theorem startsWith_false (c : Char) (t s : List Char) (h : c ∉ s) :
    startsWith s (c :: t) = false := by
  cases s with
  | nil => rfl
  | cons a s =>
      have hne : a ≠ c := fun e => h (e ▸ List.mem_cons_self _ _)
      simp [startsWith, hne]

/-- Every list starts with each of its own beginnings. -/
theorem startsWith_append (p r : List Char) : startsWith (p ++ r) p = true := by
  induction p with
  | nil => cases r <;> rfl
  | cons a p ih => simp [startsWith, ih]

/-- A separator whose first character is absent is not found. -/
theorem indexChars_none (c : Char) (t s : List Char) (h : c ∉ s) :
    indexChars s (c :: t) = none := by
  induction s with
  | nil => rfl
  | cons a s ih =>
      have hs : c ∉ s := fun hm => h (List.mem_cons_of_mem _ hm)
      simp [indexChars, startsWith_false c t (a :: s) h, ih hs]

/-- Behind a field without the separator's first character, the first
occurrence of the separator is the one right after the field. -/
theorem indexChars_append (c : Char) (t x r : List Char) (h : c ∉ x) :
    indexChars (x ++ ((c :: t) ++ r)) (c :: t) = some x.length := by
  induction x with
  | nil =>
      have hs := startsWith_append (c :: t) r
      simp only [List.nil_append, List.length_nil]
      simp only [List.cons_append] at hs ⊢
      simp [indexChars, hs]
  | cons a x ih =>
      have hx : c ∉ x := fun hm => h (List.mem_cons_of_mem _ hm)
      have hne : a ≠ c := fun e => h (e ▸ List.mem_cons_self _ _)
      simp only [List.cons_append] at ih ⊢
      simp [indexChars, startsWith, hne, ih hx]

/-- The characters of a joined line with at least two fields. -/
theorem join_cons_cons_data (x y : String) (rest : List String) (sep : String) :
    (Join (x :: y :: rest) sep).data = x.data ++ (sep.data ++ (Join (y :: rest) sep).data) := by
  simp [Join, String.data_append]

/-- Splitting a joined line gives back the fields when none of them holds the
first character of the separator and the loop may run once per separator. -/
theorem genSplit_join (c : Char) (t : List Char) (sep : String) (hsep : sep.data = c :: t)
    (xs : List String) :
    ∀ (x : String) (n : Nat), (∀ v ∈ x :: xs, c ∉ v.data) → xs.length ≤ n →
      genSplit (c :: t) n (Join (x :: xs) sep).data = (x :: xs).map String.data := by
  induction xs with
  | nil =>
      intro x n hx _
      have hn := indexChars_none c t x.data (hx x (List.mem_cons_self _ _))
      cases n with
      | zero => simp [genSplit, Join]
      | succ n => simp [genSplit, Join, hn]
  | cons y rest ih =>
      intro x n hx hn
      cases n with
      | zero => simp at hn
      | succ n =>
          have hxc : c ∉ x.data := hx x (List.mem_cons_self _ _)
          have hrest : ∀ v ∈ y :: rest, c ∉ v.data :=
            fun v hv => hx v (List.mem_cons_of_mem _ hv)
          have hlen : rest.length ≤ n := by
            simp only [List.length_cons] at hn
            omega
          rw [join_cons_cons_data, hsep]
          simp only [genSplit, indexChars_append c t x.data _ hxc]
          have htake : List.take x.data.length (x.data ++ (c :: t ++ (Join (y :: rest) sep).data))
              = x.data := by simp
          have hdrop : List.drop (x.data.length + (c :: t).length)
              (x.data ++ (c :: t ++ (Join (y :: rest) sep).data))
              = (Join (y :: rest) sep).data := by
            rw [← List.drop_drop]
            simp
          rw [htake, hdrop, ih y n hrest hlen]
          simp

/-- A joined line has at least one character per separator. -/
theorem length_le_join (sep : String) (hsep : 0 < sep.length) (xs : List String) :
    ∀ x : String, xs.length ≤ (Join (x :: xs) sep).length := by
  induction xs with
  | nil => intro x; simp
  | cons y rest ih =>
      intro x
      have h := ih y
      simp only [Join, String.length_append, List.length_cons]
      omega

/-- Round trip of `strings.Join` and `strings.Split` on a non-empty field list
none of whose fields holds the first character of the separator. -/
theorem split_join (c : Char) (sep : String) (hc : sep.data.head? = some c)
    (x : String) (xs : List String) (hx : ∀ v ∈ x :: xs, c ∉ v.data) :
    Split (Join (x :: xs) sep) sep = x :: xs := by
  obtain ⟨t, ht⟩ : ∃ t, sep.data = c :: t := by
    cases hd : sep.data with
    | nil => rw [hd] at hc; cases hc
    | cons a t =>
        rw [hd] at hc
        simp only [List.head?_cons, Option.some.injEq] at hc
        exact ⟨t, by rw [hc]⟩
  have hpos : 0 < sep.length := by
    show 0 < sep.data.length
    rw [ht]; simp
  unfold Split
  rw [ht]
  simp only [List.isEmpty_cons, Bool.false_eq_true, if_false]
  rw [genSplit_join c t sep ht xs x _ hx (length_le_join sep hpos xs x)]
  simp [List.map_map, Function.comp_def]

/-- The header of either flag value is a non-empty list of labels. -/
theorem delimHeaderFields_cons (nn : Bool) :
    ∃ x xs, delimHeaderFields nn = x :: xs := by
  cases nn
  · exact ⟨_, _, rfl⟩
  · exact ⟨_, _, rfl⟩

/-- The row of either flag value is a non-empty list of values. -/
theorem delimRow_cons (f : Float64 → String) (i : Int → String) (d : Result) (nn : Bool) :
    ∃ x xs, delimRow f i d nn = x :: xs := by
  cases nn
  · exact ⟨_, _, rfl⟩
  · exact ⟨_, _, rfl⟩

/-- Header and row have the same number of entries. -/
theorem delimRow_length (f : Float64 → String) (i : Int → String) (d : Result) (nn : Bool) :
    (delimRow f i d nn).length = (delimHeaderFields nn).length := by
  cases nn <;> rfl

set_option maxRecDepth 100000 in
/-- C4 as stated fails: with the comma as delimiter and the network names
shown, the line of a `Result` whose source network is named `Lab, East` splits
into 18 fields, the header line into 17. -/
theorem delim_field_count_differs :
    ∃ line ∈ (showBeaconsDelim sampleF sampleI [namedResult] "," true).1.tail,
      (Split line ",").length = 18
        ∧ (Split ((showBeaconsDelim sampleF sampleI [namedResult] "," true).1.headD "")
            ",").length = 17 := by
  refine ⟨"0.91,Lab, East,Public,10.0.0.5,8.8.8.8,120,512.3,30,200,60,512,100,90,0.02,0.01,5,10",
    ?_, ?_, ?_⟩
  · decide
  · decide
  · decide

/-- C4, amended: for a non-empty input and a non-empty delimiter whose first
character occurs in no header label and in no column value of any `Result`
(for a one-character delimiter: the delimiter occurs in none of them), every
data line that `showBeaconsDelim` prints splits on the delimiter into as many
fields as the header line does, one per column. -/
theorem delim_field_count (f : Float64 → String) (i : Int → String) (data : List Result)
    (delim : String) (nn : Bool) (c : Char)
    (hdata : data ≠ [])
    (hc : delim.data.head? = some c)
    (hhdr : ∀ l ∈ delimHeaderFields nn, c ∉ l.data)
    (hrow : ∀ d ∈ data, ∀ v ∈ delimRow f i d nn, c ∉ v.data) :
    (showBeaconsDelim f i data delim nn).1.tail ≠ []
      ∧ ∀ line ∈ (showBeaconsDelim f i data delim nn).1.tail,
          (Split line delim).length
              = (Split ((showBeaconsDelim f i data delim nn).1.headD "") delim).length
            ∧ (Split line delim).length = (delimHeaderFields nn).length := by
  rw [delim_lines]
  simp only [List.tail_cons, List.headD_cons]
  have hhead : Split (Join (delimHeaderFields nn) delim) delim = delimHeaderFields nn := by
    obtain ⟨x, xs, hx⟩ := delimHeaderFields_cons nn
    rw [hx] at hhdr ⊢
    exact split_join c delim hc x xs hhdr
  refine ⟨?_, ?_⟩
  · cases data with
    | nil => exact absurd rfl hdata
    | cons d ds => simp
  · intro line hline
    obtain ⟨d, hd, rfl⟩ := List.mem_map.mp hline
    have hline : Split (Join (delimRow f i d nn) delim) delim = delimRow f i d nn := by
      obtain ⟨x, xs, hx⟩ := delimRow_cons f i d nn
      have hr := hrow d hd
      rw [hx] at hr ⊢
      exact split_join c delim hc x xs hr
    rw [hline, hhead]
    exact ⟨delimRow_length f i d nn, delimRow_length f i d nn⟩

set_option maxRecDepth 100000 in
/-- C4, amended, at the spec's example with the comma as delimiter. -/
theorem delim_field_count_witness :
    (showBeaconsDelim sampleF sampleI [sampleResult] "," false).1.tail ≠ []
      ∧ ∀ line ∈ (showBeaconsDelim sampleF sampleI [sampleResult] "," false).1.tail,
          (Split line ",").length
              = (Split ((showBeaconsDelim sampleF sampleI [sampleResult] "," false).1.headD "")
                  ",").length
            ∧ (Split line ",").length = (delimHeaderFields false).length :=
  delim_field_count sampleF sampleI [sampleResult] "," false ','
    (by decide) (by decide) (by decide) (by decide)

/-! ## The text of the delimited output -/

/-- Moving a front part out of the accumulator of the library's join loop. -/
theorem intercalate_go_append (sep acc x : String) (xs : List String) :
    String.intercalate.go (acc ++ x) sep xs = acc ++ String.intercalate.go x sep xs := by
  induction xs generalizing x with
  | nil => rfl
  | cons a as ih =>
      simp only [String.intercalate.go]
      rw [← ih]
      simp only [String.append_assoc]

/-- The library's `String.join` of a list with a first element. -/
theorem string_join_cons (x : String) (xs : List String) :
    String.join (x :: xs) = x ++ String.join xs := by
  have h : ∀ (l : List String) (acc : String),
      List.foldl (fun r s => r ++ s) acc l = acc ++ List.foldl (fun r s => r ++ s) "" l := by
    intro l
    induction l with
    | nil => intro acc; simp
    | cons a l ih =>
        intro acc
        rw [List.foldl_cons, List.foldl_cons, ih (acc ++ a), ih ("" ++ a)]
        simp [String.append_assoc]
  show List.foldl (fun r s => r ++ s) "" (x :: xs) = x ++ List.foldl (fun r s => r ++ s) "" xs
  rw [List.foldl_cons, h xs ("" ++ x)]
  simp

/-- The text of a list of printed lines is those lines and an empty piece,
joined by newlines. -/
theorem textOf_eq_Join (l : String) (ls : List String) :
    textOf (l :: ls) = Join (l :: (ls ++ [""])) "\n" := by
  induction ls generalizing l with
  | nil => simp [textOf, Join]
  | cons a ls ih =>
      rw [textOf, ih a]
      simp [Join, String.append_assoc]

/-- A joined line holds a character only if the separator or a field does. -/
theorem not_mem_join (c : Char) (sep : String) (hsep : c ∉ sep.data) (xs : List String)
    (hxs : ∀ x ∈ xs, c ∉ x.data) : c ∉ (Join xs sep).data := by
  induction xs with
  | nil => simp [Join]
  | cons x rest ih =>
      cases rest with
      | nil => simpa [Join] using hxs x (List.mem_cons_self _ _)
      | cons y rest =>
          have h1 := hxs x (List.mem_cons_self _ _)
          have h2 := ih (fun v hv => hxs v (List.mem_cons_of_mem _ hv))
          simp only [Join, String.data_append, List.mem_append, not_or]
          exact ⟨⟨h1, hsep⟩, h2⟩

/-- The header labels of `showBeaconsDelim` for either flag value. -/
theorem delimHeaderFields_newline_free (nn : Bool) :
    ∀ l ∈ delimHeaderFields nn, '\n' ∉ l.data := by
  cases nn <;> decide

set_option maxRecDepth 100000 in
/-- C3 as stated fails for a delimiter that holds a newline: with the newline
as delimiter and the network names shown, the text printed for one `Result` has
34 lines, 17 for the header and 17 for the `Result`, not 2; the second line of
the text is the second header label, not the line of the `Result`. -/
theorem delim_newline_lines :
    (linesOf (textOf (showBeaconsDelim sampleF sampleI [namedResult] "\n" true).1)).length = 34
      ∧ [namedResult].length + 1 = 2
      ∧ (linesOf (textOf (showBeaconsDelim sampleF sampleI [namedResult] "\n" true).1)).take 2
          = ["Score", "Source Network"] := by
  refine ⟨?_, ?_, ?_⟩
  · decide
  · decide
  · decide

/-- C3, amended: for every input, delimiter and flag value the text that
`showBeaconsDelim` prints is the header labels joined by the delimiter and a
newline, followed for each `Result` in input order by its column values joined
by the same delimiter and a newline, and the function returns `nil`; for the
empty input the text is the header and its newline alone. When the delimiter
and every column value are free of newlines, the text has exactly
`len(R) + 1` lines: the header line, then the line of the k-th `Result` for
each k. -/
theorem delim_text (f : Float64 → String) (i : Int → String) (data : List Result)
    (delim : String) (nn : Bool) :
    let labels : List String :=
          (if nn then
              [ "Score", "Source Network", "Destination Network", "Source IP",
                "Destination IP", "Connections", "Avg. Bytes", "Intvl Range", "Size Range",
                "Top Intvl", "Top Size", "Top Intvl Count", "Top Size Count", "Intvl Skew",
                "Size Skew", "Intvl Dispersion", "Size Dispersion" ]
            else
              [ "Score", "Source IP", "Destination IP", "Connections", "Avg. Bytes",
                "Intvl Range", "Size Range", "Top Intvl", "Top Size", "Top Intvl Count",
                "Top Size Count", "Intvl Skew", "Size Skew", "Intvl Dispersion",
                "Size Dispersion" ])
    let values : Result → List String :=
          (fun d : Result =>
            if nn then
              [ f d.Score, d.SrcNetworkName, d.DstNetworkName, d.SrcIP, d.DstIP,
                i d.Connections, f d.AvgBytes, i d.Ts.Range, i d.Ds.Range, i d.Ts.Mode,
                i d.Ds.Mode, i d.Ts.ModeCount, i d.Ds.ModeCount, f d.Ts.Skew, f d.Ds.Skew,
                i d.Ts.Dispersion, i d.Ds.Dispersion ]
            else
              [ f d.Score, d.SrcIP, d.DstIP, i d.Connections, f d.AvgBytes, i d.Ts.Range,
                i d.Ds.Range, i d.Ts.Mode, i d.Ds.Mode, i d.Ts.ModeCount, i d.Ds.ModeCount,
                f d.Ts.Skew, f d.Ds.Skew, i d.Ts.Dispersion, i d.Ds.Dispersion ])
    let out := (showBeaconsDelim f i data delim nn).1
    textOf out
        = delim.intercalate labels ++ "\n"
            ++ String.join (data.map (fun d => delim.intercalate (values d) ++ "\n"))
      ∧ (showBeaconsDelim f i data delim nn).2 = none
      ∧ textOf (showBeaconsDelim f i [] delim nn).1 = delim.intercalate labels ++ "\n"
      ∧ ('\n' ∉ delim.data → (∀ d ∈ data, ∀ v ∈ values d, '\n' ∉ v.data) →
          linesOf (textOf out)
              = delim.intercalate labels :: data.map (fun d => delim.intercalate (values d))
            ∧ (linesOf (textOf out)).length = data.length + 1) := by
  intro labels values out
  have hlab : delimHeaderFields nn = labels := rfl
  have hval : ∀ d, delimRow f i d nn = values d := fun _ => rfl
  have hj : ∀ xs : List String, Join xs delim = delim.intercalate xs := by
    intro xs
    induction xs with
    | nil => rfl
    | cons x rest ih =>
        cases rest with
        | nil => rfl
        | cons y rest =>
            simp only [Join, ih, String.intercalate, String.intercalate.go]
            rw [← intercalate_go_append]
  have hloop : ∀ (xs : List Result) (init : Stdout),
      xs.foldl (fun out d => Println out (Join (delimRow f i d nn) delim)) init
        = init ++ xs.map (fun d => delim.intercalate (values d)) := by
    intro xs
    induction xs with
    | nil => intro init; simp
    | cons x xs ih =>
        intro init
        rw [List.foldl_cons, ih, Println, hj, hval, List.map_cons, List.append_assoc]
        rfl
  have hout : out = delim.intercalate labels
      :: data.map (fun d => delim.intercalate (values d)) := by
    show (showBeaconsDelim f i data delim nn).1 = _
    simp only [showBeaconsDelim]
    rw [hloop, Println, hj, hlab]
    rfl
  have hnil : (showBeaconsDelim f i [] delim nn).1 = [delim.intercalate labels] := by
    simp only [showBeaconsDelim, List.foldl_nil]
    rw [Println, hj, hlab]
    rfl
  have htext : ∀ ls : List String, textOf ls = String.join (ls.map (fun l => l ++ "\n")) := by
    intro ls
    induction ls with
    | nil => rfl
    | cons l ls ih => rw [textOf, List.map_cons, string_join_cons, ih]
  refine ⟨?_, rfl, ?_, ?_⟩
  · rw [hout, htext, List.map_cons, string_join_cons, List.map_map]
    simp only [String.append_assoc]
    rfl
  · rw [hnil]
    simp [textOf]
  · intro hd hv
    have hfree : ∀ v ∈ delim.intercalate labels
        :: (data.map (fun d => delim.intercalate (values d)) ++ [""]), '\n' ∉ v.data := by
      intro v hmem
      rcases List.mem_cons.mp hmem with rfl | hmem
      · rw [← hj, ← hlab]
        exact not_mem_join '\n' delim hd _ (delimHeaderFields_newline_free nn)
      · rcases List.mem_append.mp hmem with hmem | hmem
        · obtain ⟨d, hdm, rfl⟩ := List.mem_map.mp hmem
          rw [← hj]
          exact not_mem_join '\n' delim hd _ (hv d hdm)
        · rw [List.mem_singleton] at hmem
          subst hmem
          simp
    have hlines : linesOf (textOf out)
        = delim.intercalate labels :: data.map (fun d => delim.intercalate (values d)) := by
      rw [hout, linesOf, textOf_eq_Join, split_join '\n' "\n" rfl _ _ hfree]
      rw [← List.cons_append, List.dropLast_concat]
    rw [hlines]
    exact ⟨rfl, by simp⟩

set_option maxRecDepth 100000 in
/-- C3, amended, at the spec's example with the comma as delimiter: the
delimiter and the values are free of newlines, and the text is the header line
and the line of the one `Result`. -/
theorem delim_text_witness :
    '\n' ∉ (",").data
      ∧ (∀ d ∈ [sampleResult], ∀ v ∈ delimRow sampleF sampleI d false, '\n' ∉ v.data)
      ∧ textOf (showBeaconsDelim sampleF sampleI [sampleResult] "," false).1
          = "Score,Source IP,Destination IP,Connections,Avg. Bytes,Intvl Range,Size Range,Top Intvl,Top Size,Top Intvl Count,Top Size Count,Intvl Skew,Size Skew,Intvl Dispersion,Size Dispersion\n0.91,10.0.0.5,8.8.8.8,120,512.3,30,200,60,512,100,90,0.02,0.01,5,10\n"
      ∧ linesOf (textOf (showBeaconsDelim sampleF sampleI [sampleResult] "," false).1)
          = [ "Score,Source IP,Destination IP,Connections,Avg. Bytes,Intvl Range,Size Range,Top Intvl,Top Size,Top Intvl Count,Top Size Count,Intvl Skew,Size Skew,Intvl Dispersion,Size Dispersion",
              "0.91,10.0.0.5,8.8.8.8,120,512.3,30,200,60,512,100,90,0.02,0.01,5,10" ] :=
  ⟨by decide, by decide, by decide,
    ((delim_text sampleF sampleI [sampleResult] "," false).2.2.2 (by decide) (by decide)).1⟩

/-! ## The three renderers side by side -/

/-- Encoding keeps what a value stringifies to. -/
theorem encodeValue_render (f : Float64 → String) (i : Int → String) (v : GoValue)
    (jv : JSONValue) (h : encodeValue v = .ok jv) : jv.render f i = v.render f i := by
  cases v with
  | float x =>
      by_cases hx : x.isNaNOrInf = true
      · simp [encodeValue, hx] at h
      · simp only [encodeValue, hx, Bool.false_eq_true, if_false, Except.ok.injEq] at h
        subst h; rfl
  | int n =>
      simp only [encodeValue, Except.ok.injEq] at h
      subst h; rfl
  | str t =>
      simp only [encodeValue, Except.ok.injEq] at h
      subst h; rfl

/-- The members of an encoded struct, stringified, are the fields that
`omitempty` does not drop, stringified, in order. -/
theorem encodeFields_members (f : Float64 → String) (i : Int → String) (fs : List Field)
    (obj : JSONObject) (h : encodeFields fs = .ok obj) :
    obj.map (fun m => (m.1, m.2.render f i))
      = (fs.filter (fun fd => !(fd.omitempty && isEmptyValue fd.value))).map
          (fun fd => (fd.key, fd.value.render f i)) := by
  induction fs generalizing obj with
  | nil =>
      simp only [encodeFields, Except.ok.injEq] at h
      subst h; rfl
  | cons fd rest ih =>
      unfold encodeFields at h
      by_cases hc : (fd.omitempty && isEmptyValue fd.value) = true
      · rw [if_pos hc] at h
        simp [List.filter, hc, ih obj h]
      · rw [if_neg hc] at h
        cases hv : encodeValue fd.value with
        | error e => rw [hv] at h; cases h
        | ok v =>
            rw [hv] at h
            cases hr : encodeFields rest with
            | error e => rw [hr] at h; cases h
            | ok o =>
                rw [hr] at h
                simp only [Except.ok.injEq] at h
                subst h
                have hc' : (fd.omitempty && isEmptyValue fd.value) = false :=
                  Bool.eq_false_iff.mpr hc
                have hf : List.filter (fun fd => !(fd.omitempty && isEmptyValue fd.value))
                    (fd :: rest)
                    = fd :: List.filter
                        (fun fd => !(fd.omitempty && isEmptyValue fd.value)) rest := by
                  apply List.filter_cons_of_pos
                  rw [hc']; rfl
                rw [hf, List.map_cons, List.map_cons, ih o hr, encodeValue_render f i _ _ hv]

/-- The values of an object without its network-name members, read off the
stringified members. -/
theorem dropNames_values (f : Float64 → String) (i : Int → String) (obj : JSONObject) :
    (dropNames obj).map (fun m => m.2.render f i)
      = ((obj.map (fun m => (m.1, m.2.render f i))).filter
          (fun p => p.1 != "SourceNetworkName" && p.1 != "DestinationNetworkName")).map
          Prod.snd := by
  rw [List.filter_map, List.map_map]
  rfl

/-- The values of an object, read off the stringified members. -/
theorem object_values (f : Float64 → String) (i : Int → String) (obj : JSONObject) :
    obj.map (fun m => m.2.render f i)
      = (obj.map (fun m => (m.1, m.2.render f i))).map Prod.snd := by
  rw [List.map_map]
  rfl

/-- The object of the row of one `Result`: without its network-name members
its values are the text row without the network names; as a whole its values
are the text row with each empty network name left out. -/
theorem row_object_values (f : Float64 → String) (i : Int → String) (d : Result) (nn : Bool)
    (obj : JSONObject) (h : encodeFields (jsonRow d nn).fields = .ok obj) :
    (dropNames obj).map (fun m => m.2.render f i) = humanRow f i d false
      ∧ (nn = true → obj.map (fun m => m.2.render f i)
          = (humanRow f i d true).take 1
              ++ (((humanRow f i d true).drop 1).take 2).filter (fun v => v != "")
              ++ (humanRow f i d true).drop 3) := by
  rw [dropNames_values, object_values, encodeFields_members f i _ _ h]
  cases nn
  · refine ⟨?_, fun hf => by cases hf⟩
    simp [DataRow.fields, jsonRow, List.filter, isEmptyValue_str, GoValue.render, humanRow]
  · have b1 : (d.SrcNetworkName != "") = !decide (d.SrcNetworkName = "") := by
      by_cases h1 : d.SrcNetworkName = "" <;> simp [h1]
    have b2 : (d.DstNetworkName != "") = !decide (d.DstNetworkName = "") := by
      by_cases h2 : d.DstNetworkName = "" <;> simp [h2]
    by_cases h1 : d.SrcNetworkName = "" <;> by_cases h2 : d.DstNetworkName = ""
      <;> simp [DataRow.fields, jsonRow, List.filter, isEmptyValue_str, GoValue.render,
            humanRow, h1, h2, b1, b2]

/-- Every element on the right of a pointwise relation has a partner on the
left. -/
theorem forall₂_partner {α β : Type} (R : α → β → Prop) (xs : List α) (ys : List β)
    (h : List.Forall₂ R xs ys) : ∀ y ∈ ys, ∃ x ∈ xs, R x y := by
  induction h with
  | nil => intro y hy; cases hy
  | cons hxy _ ih =>
      intro y hy
      rcases List.mem_cons.mp hy with rfl | hy
      · exact ⟨_, List.mem_cons_self _ _, hxy⟩
      · obtain ⟨x, hx, hr⟩ := ih y hy
        exact ⟨x, List.mem_cons_of_mem _ hx, hr⟩

/-- Without its network-name members an object of any row has the fifteen
other keys. -/
theorem dropNames_keys (r : DataRow) (obj : JSONObject)
    (h : encodeFields r.fields = .ok obj) :
    keysOf (dropNames obj)
      = [ "Score", "SourceIP", "DestinationIP", "Connections", "AvgBytes", "IntvlRange",
                  "SizeRange", "TopIntvl", "TopSize", "TopIntvlCount", "TopSizeCount",
                  "IntvlSkew", "SizeSkew", "IntvlDispersion", "SizeDispersion" ] := by
  have hk : keysOf (dropNames obj)
      = (keysOf obj).filter
          (fun k => k != "SourceNetworkName" && k != "DestinationNetworkName") := by
    simp only [keysOf, dropNames, List.filter_map]
    rfl
  rw [hk, row_keys r obj h]
  by_cases h1 : r.SourceNetworkName = "" <;> by_cases h2 : r.DestinationNetworkName = ""
    <;> simp [goKeys, List.filter, h1, h2]

/-- C6: for every input, delimiter and flag value the delimited output is the
table's header and the table's rows, each joined by the delimiter, so the two
text renderers have the same columns in the same order, 15 or 17 of them in
the header and in every row. The fields of the JSON row of a `Result`,
stringified in declaration order by the same formatters, are the text row with
the flag set, and without the two network-name fields they are the text row
without the flag; so it is for the rows that `showBeaconsJSON` marshals for the
Results, which have 17 fields each. Every object it prints
has, apart from the network-name members, the fifteen keys of the other
columns in column order, and the object of each `Result` holds under them the
values of the text row; with the flag set the whole object is the text row
with each empty network name left out. -/
theorem renderers_agree (f : Float64 → String) (i : Int → String) (data : List Result)
    (delim : String) (nn : Bool) :
    let table := (showBeaconsHuman f i data nn).1
    let base := (showBeaconsHuman f i data false).1
    ((showBeaconsDelim f i data delim nn).1
          = delim.intercalate table.headers
              :: table.lines.map (fun row => delim.intercalate row)
        ∧ humanHeaderFields nn = delimHeaderFields nn
        ∧ (∀ d, humanRow f i d nn = delimRow f i d nn)
        ∧ table.headers.length = (if nn then 17 else 15)
        ∧ table.lines.length = data.length
        ∧ ∀ row ∈ table.lines, row.length = table.headers.length)
      ∧ (∀ d : Result,
          (jsonRow d true).fields.map (fun fd => fd.value.render f i) = humanRow f i d true
            ∧ (((jsonRow d nn).fields.eraseIdx 1).eraseIdx 1).map
                (fun fd => fd.value.render f i) = humanRow f i d false)
      ∧ (∀ rows, showBeaconsJSONRows data nn = some rows →
          (∀ r ∈ rows, r.fields.length = 17)
            ∧ List.Forall₂
                (fun row r =>
                  ((r.fields.eraseIdx 1).eraseIdx 1).map (fun fd => fd.value.render f i) = row)
                base.lines (rows.drop (data.length - 1))
            ∧ (nn = true →
                List.Forall₂ (fun row r => r.fields.map (fun fd => fd.value.render f i) = row)
                  table.lines (rows.drop (data.length - 1))))
      ∧ (∀ arr, showBeaconsJSON data nn = some ⟨some arr, none⟩ →
          (∀ obj ∈ arr,
              keysOf (dropNames obj)
                = [ "Score", "SourceIP", "DestinationIP", "Connections", "AvgBytes", "IntvlRange",
                  "SizeRange", "TopIntvl", "TopSize", "TopIntvlCount", "TopSizeCount",
                  "IntvlSkew", "SizeSkew", "IntvlDispersion", "SizeDispersion" ]
              ∧ (dropNames obj).length = base.headers.length)
            ∧ List.Forall₂
                (fun row obj => (dropNames obj).map (fun m => m.2.render f i) = row)
                base.lines (arr.drop (data.length - 1))
            ∧ (nn = true →
                List.Forall₂
                  (fun row obj =>
                    obj.map (fun m => m.2.render f i)
                      = row.take 1 ++ ((row.drop 1).take 2).filter (fun v => v != "")
                          ++ row.drop 3)
                  table.lines (arr.drop (data.length - 1)))) := by
  intro table base
  have hj : ∀ xs : List String, Join xs delim = delim.intercalate xs := by
    intro xs
    induction xs with
    | nil => rfl
    | cons x rest ih =>
        cases rest with
        | nil => rfl
        | cons y rest =>
            simp only [Join, ih, String.intercalate, String.intercalate.go]
            rw [← intercalate_go_append]
  have hhuman : ∀ b : Bool, (showBeaconsHuman f i data b).1
      = ⟨humanHeaderFields b, data.map (fun d => humanRow f i d b)⟩ := by
    intro b
    have h : ∀ (xs : List Result) (t : Table),
        xs.foldl (fun t d => t.Append (humanRow f i d b)) t
          = ⟨t.headers, t.lines ++ xs.map (fun d => humanRow f i d b)⟩ := by
      intro xs
      induction xs with
      | nil => intro t; simp
      | cons x xs ih =>
          intro t
          rw [List.foldl_cons, ih]
          simp [Table.Append]
    simp [showBeaconsHuman, h, NewWriter, Table.SetHeader]
  have htable : table = ⟨humanHeaderFields nn, data.map (fun d => humanRow f i d nn)⟩ :=
    hhuman nn
  have hbase : base = ⟨humanHeaderFields false, data.map (fun d => humanRow f i d false)⟩ :=
    hhuman false
  have hdelim : (showBeaconsDelim f i data delim nn).1
      = Join (delimHeaderFields nn) delim
          :: data.map (fun d => Join (delimRow f i d nn) delim) := by
    simp only [showBeaconsDelim, Println]
    rw [foldl_append_singleton (fun d => Join (delimRow f i d nn) delim)]
    simp
  have hrowsdrop : ∀ rows, showBeaconsJSONRows data nn = some rows →
      rows.drop (data.length - 1) = data.map (fun d => jsonRow d nn) := by
    intro rows h
    cases data with
    | nil => simp [showBeaconsJSONRows, make] at h
    | cons d ds =>
        have hlt : ¬ (((ds.length : Int) + 1) - 1 < 0) := by omega
        simp only [showBeaconsJSONRows, make, List.length_cons, Nat.cast_add, Nat.cast_one,
          hlt, if_false, Option.map_some', Option.some.injEq] at h
        rw [foldl_append_singleton (fun x => jsonRow x nn)] at h
        subst h
        apply List.drop_left'
        simp
  have hprinted : ∀ arr, showBeaconsJSON data nn = some ⟨some arr, none⟩ →
      ∃ rows, showBeaconsJSONRows data nn = some rows ∧ Marshal rows = .ok arr := by
    intro arr h
    unfold showBeaconsJSON at h
    cases hr : showBeaconsJSONRows data nn with
    | none => rw [hr] at h; cases h
    | some rows =>
        rw [hr] at h
        dsimp only at h
        cases hm : Marshal rows with
        | error e => rw [hm] at h; simp at h
        | ok a =>
            rw [hm] at h
            simp only [Option.some.injEq, JSONRun.mk.injEq, and_true] at h
            exact ⟨rows, rfl, by rw [hm, h]⟩
  have hhdr : humanHeaderFields nn = delimHeaderFields nn := by cases nn <;> rfl
  have hrow : ∀ d, humanRow f i d nn = delimRow f i d nn := by
    intro d; cases nn <;> rfl
  refine ⟨⟨?_, hhdr, hrow, ?_, ?_, ?_⟩, fun d => ⟨rfl, by cases nn <;> rfl⟩, ?_, ?_⟩
  · rw [hdelim, htable, hj, hhdr, List.map_map]
    congr 1
    apply List.map_congr_left
    intro d _
    simp only [Function.comp_def, hj, hrow]
  · rw [htable]; cases nn <;> rfl
  · rw [htable]; simp
  · rw [htable]
    intro row hmem
    obtain ⟨d, _, rfl⟩ := List.mem_map.mp hmem
    cases nn <;> rfl
  · intro rows hrows
    rw [hrowsdrop rows hrows, htable, hbase]
    refine ⟨fun r _ => rfl, ?_, ?_⟩
    · rw [List.forall₂_map_left_iff, List.forall₂_map_right_iff, List.forall₂_same]
      intro d _
      cases nn <;> rfl
    · intro hnn
      subst hnn
      rw [List.forall₂_map_left_iff, List.forall₂_map_right_iff, List.forall₂_same]
      intro d _
      rfl
  · intro arr harr
    obtain ⟨rows, hrows, hm⟩ := hprinted arr harr
    have hmarshal : ∀ (rs : List DataRow) (os : List JSONObject), Marshal rs = .ok os →
        List.Forall₂ (fun r obj => encodeFields r.fields = .ok obj) rs os := by
      intro rs
      induction rs with
      | nil =>
          intro os h
          simp only [Marshal, Except.ok.injEq] at h
          subst h; exact List.Forall₂.nil
      | cons r rest ih =>
          intro os h
          unfold Marshal at h
          cases ho : encodeFields r.fields with
          | error e => rw [ho] at h; cases h
          | ok obj =>
              rw [ho] at h
              cases hr : Marshal rest with
              | error e => rw [hr] at h; cases h
              | ok a =>
                  rw [hr] at h
                  simp only [Except.ok.injEq] at h
                  subst h
                  exact List.Forall₂.cons ho (ih a hr)
    have hall := hmarshal rows arr hm
    have hdrop : List.Forall₂ (fun d obj => encodeFields (jsonRow d nn).fields = .ok obj)
        data (arr.drop (data.length - 1)) := by
      have h := List.forall₂_drop (data.length - 1) hall
      rw [hrowsdrop rows hrows, List.forall₂_map_left_iff] at h
      exact h
    refine ⟨?_, ?_, ?_⟩
    · intro obj hobj
      obtain ⟨r, _, hr⟩ := forall₂_partner _ rows arr hall obj hobj
      have hk := dropNames_keys r obj hr
      refine ⟨hk, ?_⟩
      have hl : (dropNames obj).length = (keysOf (dropNames obj)).length := by
        simp [keysOf]
      rw [hl, hk, hbase]
      rfl
    · rw [hbase, List.forall₂_map_left_iff]
      exact List.Forall₂.imp (fun d obj h => (row_object_values f i d nn obj h).1) hdrop
    · intro hnn
      rw [htable, List.forall₂_map_left_iff]
      subst hnn
      exact List.Forall₂.imp (fun d obj h => (row_object_values f i d true obj h).2 rfl) hdrop

set_option maxRecDepth 100000 in
/-- C6 at the input `[sampleResult, namedResult]` with the network names shown
and the comma as delimiter: the three printed objects have 15, 15 and 17 keys,
and without their network-name members the objects of the two Results hold the
values of the two text rows of the table without network names. -/
theorem renderers_agree_witness :
    showBeaconsJSON [sampleResult, namedResult] true = some ⟨some samplePrinted, none⟩
      ∧ samplePrinted.map (fun obj => (keysOf obj).length) = [15, 15, 17]
      ∧ List.Forall₂
          (fun row obj => (dropNames obj).map (fun m => m.2.render sampleF sampleI) = row)
          (showBeaconsHuman sampleF sampleI [sampleResult, namedResult] false).1.lines
          (samplePrinted.drop ([sampleResult, namedResult].length - 1)) :=
  ⟨by decide, by decide,
    ((renderers_agree sampleF sampleI [sampleResult, namedResult] "," true).2.2.2
      samplePrinted (by decide)).2.1⟩

end ShowBeacons
